import Mathlib

/-!
Verification of the replay buffer and training-loop control logic of a DDPG
(Deep Deterministic Policy Gradient) training script.

The embedding below mirrors `spinup/algos/tf1/ddpg/ddpg.py`:
numpy float32 scalars become rationals, numpy row vectors become `List ℚ`,
the boolean done flag becomes `Bool`, and the random sources (numpy's
`randint`, `randn`, the action-space sampler) become explicit oracle
parameters constrained by the hypotheses their library contracts guarantee.
-/

namespace DDPGSpec

/-- One transition tuple, in the field order of `ReplayBuffer.store`'s
parameters: `store(self, raw, obs, act, rew, next_obs, done)`. -/
structure Transition where
  raw : List ℚ
  obs : List ℚ
  act : List ℚ
  rew : ℚ
  next_obs : List ℚ
  done : Bool
deriving DecidableEq, Repr

instance : Inhabited Transition := ⟨⟨[], [], [], 0, [], false⟩⟩

/-- The replay buffer state: six parallel arrays plus write cursor `ptr`,
current `size` and capacity `max_size` (fields of `ReplayBuffer.__init__`). -/
structure ReplayBuffer where
  raw_outs_buf : List (List ℚ)
  obs1_buf : List (List ℚ)
  obs2_buf : List (List ℚ)
  acts_buf : List (List ℚ)
  rews_buf : List ℚ
  done_buf : List Bool
  ptr : Nat
  size : Nat
  max_size : Nat
deriving DecidableEq, Repr

namespace ReplayBuffer

/-- `ReplayBuffer.__init__(obs_dim, act_dim, size)`: all six arrays are
zero-filled (`np.zeros`), `ptr = size = 0`, `max_size = size` argument. -/
def init (obs_dim act_dim size : Nat) : ReplayBuffer :=
  { raw_outs_buf := List.replicate size (List.replicate obs_dim 0)
    obs1_buf := List.replicate size (List.replicate obs_dim 0)
    obs2_buf := List.replicate size (List.replicate obs_dim 0)
    acts_buf := List.replicate size (List.replicate act_dim 0)
    rews_buf := List.replicate size 0
    done_buf := List.replicate size false
    ptr := 0
    size := 0
    max_size := size }

/-- `ReplayBuffer.store(raw, obs, act, rew, next_obs, done)`: writes the six
fields at index `ptr`, then `ptr = (ptr + 1) % max_size` and
`size = min(size + 1, max_size)`. -/
def store (b : ReplayBuffer) (raw obs act : List ℚ) (rew : ℚ)
    (next_obs : List ℚ) (done : Bool) : ReplayBuffer :=
  { b with
    raw_outs_buf := b.raw_outs_buf.set b.ptr raw
    obs1_buf := b.obs1_buf.set b.ptr obs
    obs2_buf := b.obs2_buf.set b.ptr next_obs
    acts_buf := b.acts_buf.set b.ptr act
    rews_buf := b.rews_buf.set b.ptr rew
    done_buf := b.done_buf.set b.ptr done
    ptr := (b.ptr + 1) % b.max_size
    size := min (b.size + 1) b.max_size }

/-- `store` applied to a packaged transition. -/
def storeT (b : ReplayBuffer) (t : Transition) : ReplayBuffer :=
  b.store t.raw t.obs t.act t.rew t.next_obs t.done

/-- Folding `store` over a list of transitions, in order. -/
def storeAll (b : ReplayBuffer) (ts : List Transition) : ReplayBuffer :=
  ts.foldl storeT b

/-- The transition read back from slot `j`: the `j`-th entry of each of the
six parallel arrays. -/
def slotAt (b : ReplayBuffer) (j : Nat) : Transition :=
  { raw := b.raw_outs_buf.getD j []
    obs := b.obs1_buf.getD j []
    act := b.acts_buf.getD j []
    rew := b.rews_buf.getD j 0
    next_obs := b.obs2_buf.getD j []
    done := b.done_buf.getD j false }

/-- Lengths of the six buffer arrays created in `ReplayBuffer.__init__`
(`raw_outs_buf`, `obs1_buf`, `obs2_buf`, `acts_buf`, `rews_buf`,
`done_buf`), in declaration order. -/
def fieldArrayLengths (b : ReplayBuffer) : List Nat :=
  [b.raw_outs_buf.length, b.obs1_buf.length, b.obs2_buf.length,
   b.acts_buf.length, b.rews_buf.length, b.done_buf.length]

/-- Structural invariant of the buffer: the cursor is inside the storage,
the reported size never exceeds capacity, and all six parallel arrays have
length exactly `max_size`. -/
def wf (b : ReplayBuffer) : Prop :=
  b.ptr < b.max_size ∧ b.size ≤ b.max_size ∧
  b.raw_outs_buf.length = b.max_size ∧ b.obs1_buf.length = b.max_size ∧
  b.obs2_buf.length = b.max_size ∧ b.acts_buf.length = b.max_size ∧
  b.rews_buf.length = b.max_size ∧ b.done_buf.length = b.max_size

instance (b : ReplayBuffer) : Decidable b.wf := by
  unfold wf; infer_instance

end ReplayBuffer

/-- The field-aligned slices returned by `ReplayBuffer.sample_batch`.
numpy's `np.random.randint(0, size, batch_size)` is modelled as an explicit
index-list oracle; its library contract — every drawn index lies in
`[0, size)` — becomes a hypothesis of the theorems. -/
structure Batch where
  raw : List (List ℚ)
  obs1 : List (List ℚ)
  obs2 : List (List ℚ)
  acts : List (List ℚ)
  rews : List ℚ
  done : List Bool
deriving DecidableEq, Repr

/-- `ReplayBuffer.sample_batch(batch_size)`: for drawn indices `idxs`,
returns the dict of the six buffer arrays sliced at `idxs`. -/
def ReplayBuffer.sample_batch (b : ReplayBuffer) (idxs : List Nat) : Batch :=
  { raw := idxs.map (fun i => b.raw_outs_buf.getD i [])
    obs1 := idxs.map (fun i => b.obs1_buf.getD i [])
    obs2 := idxs.map (fun i => b.obs2_buf.getD i [])
    acts := idxs.map (fun i => b.acts_buf.getD i [])
    rews := idxs.map (fun i => b.rews_buf.getD i 0)
    done := idxs.map (fun i => b.done_buf.getD i false) }

/-- Concrete transitions used to instantiate the theorems below. -/
def tA : Transition := ⟨[1], [2], [3], 4, [5], false⟩

def tB : Transition := ⟨[6], [7], [8], 9, [10], true⟩

def tC : Transition := ⟨[11], [12], [13], 14, [15], false⟩

def tD : Transition := ⟨[16], [17], [18], 19, [20], false⟩

/-- `act_limit = env.action_space.high[0]` (line 170): only the first
component of the upper bound is consulted. -/
def act_limit (high : List ℚ) : ℚ := high.getD 0 0

/-- `np.clip(x, lo, hi)` on one component: `min(hi, max(lo, x))`. -/
def npClip (x lo hi : ℚ) : ℚ := min hi (max lo x)

/-- `get_action(o, noise_scale)` (lines 241-244): the policy output for the
observation plus `noise_scale` times a standard-normal draw, clipped
component-wise to `[-act_limit, act_limit]`. `pi_out` is the policy
network's output row and `noise` the `np.random.randn(act_dim)` draw, both
modelled as oracle inputs. -/
def get_action (pi_out noise : List ℚ) (noise_scale L : ℚ) : List ℚ :=
  (List.zipWith (fun ai ni => ai + noise_scale * ni) pi_out noise).map
    (fun x => npClip x (-L) L)

/-- Action selection of the main loop (lines 329-335):
`a = get_action(o, act_noise) if t > start_steps else env.action_space.sample()`.
The two candidate actions are passed in explicitly. -/
def selectAction {α : Type} (t start_steps : Nat) (randomA policyA : α) : α :=
  if start_steps < t then policyA else randomA

/-- One iteration of the per-step episode bookkeeping of the main loop
(lines 341-372), after `env.step` returned `(o2, r, d_env)`:
`ep_len += 1`; the done flag is forced to `False` when `ep_len` hits
`max_ep_len` (line 351); the transition is stored (line 358); on episode
end (`d or ep_len == max_ep_len`) the episode accumulators are reset.
Returns the new buffer, the new `ep_len`, and the stored done flag. -/
def trainStep (b : ReplayBuffer) (ep_len max_ep_len : Nat)
    (raw o act : List ℚ) (r : ℚ) (o2 : List ℚ) (d_env : Bool) :
    ReplayBuffer × Nat × Bool :=
  let ep_len2 := ep_len + 1
  let d := if ep_len2 = max_ep_len then false else d_env
  let b2 := b.store raw o act r o2 d
  let finished := d || (ep_len2 == max_ep_len)
  (b2, if finished then 0 else ep_len2, d)

/-- `target_init` (lines 213-214): each target variable is assigned the
corresponding main variable. -/
def target_init (main targ : List ℚ) : List ℚ :=
  List.zipWith (fun v_main _v_targ => v_main) main targ

/-- `target_update` (lines 209-210): each target variable is assigned
`polyak * v_targ + (1 - polyak) * v_main`. -/
def target_update (polyak : ℚ) (main targ : List ℚ) : List ℚ :=
  List.zipWith (fun v_main v_targ => polyak * v_targ + (1 - polyak) * v_main)
    main targ

/-- The four operations of one gradient-update iteration of the
update-handling block (lines 380-395). -/
inductive UpdateOp where
  | sampleBatch : UpdateOp
  | qUpdate : UpdateOp
  | piUpdate : UpdateOp
  | targUpdate : UpdateOp
deriving DecidableEq, Repr

/-- One iteration of the update loop body (lines 381-394): sample one
random batch, run the Q-learning update, then the policy update together
with the target-network smoothing step. -/
def updateIterationOps : List UpdateOp :=
  [UpdateOp.sampleBatch, UpdateOp.qUpdate, UpdateOp.piUpdate,
   UpdateOp.targUpdate]

/-- The guard of the update-handling block (line 375):
`t >= update_after and t % update_every == 0`. -/
def updateTrigger (t update_after update_every : Nat) : Bool :=
  decide (update_after ≤ t) && decide (t % update_every = 0)

/-- The sequence of update operations executed at step `t`
(lines 375-395): when the guard holds, `update_every` iterations of the
loop body; otherwise nothing. -/
def updateOps (t update_after update_every : Nat) : List UpdateOp :=
  if updateTrigger t update_after update_every then
    (List.replicate update_every updateIterationOps).flatten
  else []

/-- Python dict read, `d[k]` as an option. -/
def dictGet (d : List (String × String)) (k : String) : Option String :=
  List.lookup k d

/-- Python dict assignment `d[k] = v`: replaces the value at the first
occurrence of `k`, or appends `(k, v)` when `k` is absent. -/
def dictSet : List (String × String) → String → String →
    List (String × String)
  | [], k, v => [(k, v)]
  | p :: rest, k, v =>
    if p.1 = k then (k, v) :: rest else p :: dictSet rest k v

/-- The environment-parameter dicts seen by the two `update` calls and the
final contents of the caller's dict. -/
structure EnvSetup where
  trainParams : List (String × String)
  testParams : List (String × String)
  finalParams : List (String × String)

/-- Environment configuration at the start of `ddpg` (lines 146-159):
`env.update(**env_params)` with the caller's dict, then
`env_params['reset_index_mode'] = 'random'` mutates that same dict, then
`test_env.update(**env_params)` with the mutated dict. The mutation is
modelled by returning the dict's final contents. -/
def configureEnvs (env_params : List (String × String)) : EnvSetup :=
  let trainParams := env_params
  let mutated := dictSet env_params "reset_index_mode" "random"
  { trainParams := trainParams, testParams := mutated,
    finalParams := mutated }

/-! List access helper lemmas. -/

theorem getD_set_self {α : Type} (l : List α) (i : Nat) (a d : α)
    (h : i < l.length) : (l.set i a).getD i d = a := by
  induction l generalizing i with
  | nil => simp at h
  | cons x xs ih =>
    cases i with
    | zero => simp [List.getD]
    | succ n =>
      simp only [List.set, List.getD, List.getElem?_cons_succ]
      exact ih n (by simpa using h)

theorem getD_set_ne {α : Type} (l : List α) (i j : Nat) (a d : α)
    (h : i ≠ j) : (l.set i a).getD j d = l.getD j d := by
  induction l generalizing i j with
  | nil => simp [List.getD]
  | cons x xs ih =>
    cases i with
    | zero =>
      cases j with
      | zero => exact absurd rfl h
      | succ m => simp [List.getD]
    | succ n =>
      cases j with
      | zero => simp [List.getD]
      | succ m =>
        simp only [List.set, List.getD, List.getElem?_cons_succ]
        exact ih n m (fun hnm => h (by rw [hnm]))

theorem getD_map {α β : Type} (f : α → β) (l : List α) (i : Nat)
    (d1 : α) (d2 : β) (h : i < l.length) :
    (l.map f).getD i d2 = f (l.getD i d1) := by
  induction l generalizing i with
  | nil => simp at h
  | cons x xs ih =>
    cases i with
    | zero => simp [List.getD]
    | succ n =>
      simp only [List.map, List.getD, List.getElem?_cons_succ]
      exact ih n (by simpa using h)

theorem getD_zipWith {α β γ : Type} (f : α → β → γ) (l1 : List α)
    (l2 : List β) (i : Nat) (d1 : α) (d2 : β) (d3 : γ)
    (h1 : i < l1.length) (h2 : i < l2.length) :
    (List.zipWith f l1 l2).getD i d3 = f (l1.getD i d1) (l2.getD i d2) := by
  induction l1 generalizing l2 i with
  | nil => simp at h1
  | cons x xs ih =>
    cases l2 with
    | nil => simp at h2
    | cons y ys =>
      cases i with
      | zero => simp [List.getD]
      | succ n =>
        simp only [List.zipWith, List.getD, List.getElem?_cons_succ]
        exact ih ys n (by simpa using h1) (by simpa using h2)

theorem getD_mem {α : Type} (l : List α) (i : Nat) (d : α)
    (h : i < l.length) : l.getD i d ∈ l := by
  rw [List.getD_eq_getElem l d h]
  exact List.getElem_mem h

theorem getD_append_left {α : Type} (l1 l2 : List α) (i : Nat) (d : α)
    (h : i < l1.length) : (l1 ++ l2).getD i d = l1.getD i d := by
  induction l1 generalizing i with
  | nil => simp at h
  | cons x xs ih =>
    cases i with
    | zero => simp [List.getD]
    | succ n =>
      simp only [List.cons_append, List.getD, List.getElem?_cons_succ]
      exact ih n (by simpa using h)

theorem getD_append_right {α : Type} (l1 l2 : List α) (i : Nat) (d : α)
    (h : l1.length ≤ i) : (l1 ++ l2).getD i d = l2.getD (i - l1.length) d := by
  induction l1 generalizing i with
  | nil => simp
  | cons x xs ih =>
    cases i with
    | zero => simp at h
    | succ n =>
      simp only [List.cons_append, List.getD, List.getElem?_cons_succ,
        List.length_cons, Nat.succ_sub_succ]
      exact ih n (by simpa using h)

/-! Basic facts about `store`. -/

namespace ReplayBuffer

theorem slotAt_store_self (b : ReplayBuffer) (raw obs act : List ℚ) (rew : ℚ)
    (next_obs : List ℚ) (done : Bool) (hwf : b.wf) :
    (b.store raw obs act rew next_obs done).slotAt b.ptr =
      ⟨raw, obs, act, rew, next_obs, done⟩ := by
  obtain ⟨hptr, _, h1, h2, h3, h4, h5, h6⟩ := hwf
  simp only [store, slotAt]
  rw [getD_set_self _ _ _ _ (h1 ▸ hptr), getD_set_self _ _ _ _ (h2 ▸ hptr),
    getD_set_self _ _ _ _ (h4 ▸ hptr), getD_set_self _ _ _ _ (h5 ▸ hptr),
    getD_set_self _ _ _ _ (h3 ▸ hptr), getD_set_self _ _ _ _ (h6 ▸ hptr)]

theorem slotAt_store_ne (b : ReplayBuffer) (raw obs act : List ℚ) (rew : ℚ)
    (next_obs : List ℚ) (done : Bool) (j : Nat) (hj : j ≠ b.ptr) :
    (b.store raw obs act rew next_obs done).slotAt j = b.slotAt j := by
  simp only [store, slotAt]
  rw [getD_set_ne _ _ _ _ _ (fun h => hj h.symm),
    getD_set_ne _ _ _ _ _ (fun h => hj h.symm),
    getD_set_ne _ _ _ _ _ (fun h => hj h.symm),
    getD_set_ne _ _ _ _ _ (fun h => hj h.symm),
    getD_set_ne _ _ _ _ _ (fun h => hj h.symm),
    getD_set_ne _ _ _ _ _ (fun h => hj h.symm)]

theorem wf_store (b : ReplayBuffer) (raw obs act : List ℚ) (rew : ℚ)
    (next_obs : List ℚ) (done : Bool) (hwf : b.wf) :
    (b.store raw obs act rew next_obs done).wf := by
  obtain ⟨hptr, hsize, h1, h2, h3, h4, h5, h6⟩ := hwf
  have hpos : 0 < b.max_size := Nat.pos_of_ne_zero (by omega)
  refine ⟨Nat.mod_lt _ hpos, ?_, ?_, ?_, ?_, ?_, ?_, ?_⟩ <;>
    simp [store, List.length_set, h1, h2, h3, h4, h5, h6, Nat.min_le_right]

theorem wf_init (obs_dim act_dim C : Nat) (hC : 0 < C) :
    (init obs_dim act_dim C).wf := by
  refine ⟨hC, Nat.zero_le _, ?_, ?_, ?_, ?_, ?_, ?_⟩ <;> simp [init]

theorem storeAll_append_one (b : ReplayBuffer) (ts : List Transition)
    (t : Transition) : b.storeAll (ts ++ [t]) = (b.storeAll ts).storeT t := by
  simp [storeAll, List.foldl_append]

/-- State of the buffer after folding an arbitrary transition list into a
fresh buffer: the invariant holds, capacity is unchanged, the cursor equals
the number of stores modulo capacity, and the size is the number of stores
capped at capacity. -/
theorem storeAll_state (o a cap : Nat) (hcap : 0 < cap)
    (ts : List Transition) :
    ((init o a cap).storeAll ts).wf ∧
    ((init o a cap).storeAll ts).max_size = cap ∧
    ((init o a cap).storeAll ts).ptr = ts.length % cap ∧
    ((init o a cap).storeAll ts).size = min ts.length cap := by
  induction ts using List.reverseRecOn with
  | nil =>
    refine ⟨wf_init o a cap hcap, rfl, ?_, ?_⟩ <;>
      simp [storeAll, init, Nat.zero_mod]
  | append_singleton ts t ih =>
    obtain ⟨hwf, hmax, hptr, hsize⟩ := ih
    rw [storeAll_append_one]
    refine ⟨wf_store _ _ _ _ _ _ _ hwf, ?_, ?_, ?_⟩
    · simpa [storeT, store] using hmax
    · simp only [storeT, store, hptr, hmax, List.length_append,
        List.length_singleton]
      exact Nat.mod_add_mod ts.length cap 1
    · simp only [storeT, store, hsize, hmax, List.length_append,
        List.length_singleton]
      omega

/-- Last-writer-wins: if no transition after index `m` lands on the same
slot (same residue mod capacity), then slot `m % cap` still holds
transition `m`. -/
theorem storeAll_slotAt (o a cap : Nat) (hcap : 0 < cap)
    (ts : List Transition) (m : Nat) (hm : m < ts.length)
    (hlast : ∀ k, m < k → k < ts.length → k % cap ≠ m % cap) :
    ((init o a cap).storeAll ts).slotAt (m % cap) = ts.getD m default := by
  induction ts using List.reverseRecOn with
  | nil => simp at hm
  | append_singleton ts t ih =>
    rw [storeAll_append_one]
    obtain ⟨hwf, hmax, hptr, _⟩ := storeAll_state o a cap hcap ts
    rcases Nat.lt_or_ge m ts.length with hlt | hge
    · have hne : m % cap ≠ ts.length % cap :=
        fun h => hlast ts.length hlt (by simp) h.symm
      rw [show ((init o a cap).storeAll ts).storeT t =
            ((init o a cap).storeAll ts).store t.raw t.obs t.act t.rew
              t.next_obs t.done from rfl]
      rw [slotAt_store_ne _ _ _ _ _ _ _ _ (hptr ▸ hne)]
      rw [ih hlt (fun k hk1 hk2 => hlast k hk1 (by simp; omega))]
      exact (getD_append_left ts [t] m default hlt).symm
    · have hmeq : m = ts.length := by
        have := hm; simp only [List.length_append, List.length_singleton] at this
        omega
      subst hmeq
      rw [show ((init o a cap).storeAll ts).storeT t =
            ((init o a cap).storeAll ts).store t.raw t.obs t.act t.rew
              t.next_obs t.done from rfl]
      rw [← hptr, slotAt_store_self _ _ _ _ _ _ _ hwf]
      rw [getD_append_right ts [t] ts.length default (Nat.le_refl _)]
      simp [List.getD]

end ReplayBuffer

/-- C1: for every well-formed replay buffer (capacity > 0 is implied by the
cursor invariant), `store` writes the six transition fields into the slot at
the current cursor — the slot read back afterwards is exactly the stored
transition, regardless of its previous contents — then advances the cursor
by one modulo capacity and sets the reported size to
min(old size + 1, capacity). -/
theorem store_writes_at_cursor (b : ReplayBuffer) (raw obs act : List ℚ)
    (rew : ℚ) (next_obs : List ℚ) (done : Bool) (hwf : b.wf) :
    0 < b.max_size ∧
    (b.store raw obs act rew next_obs done).slotAt b.ptr =
      ⟨raw, obs, act, rew, next_obs, done⟩ ∧
    (b.store raw obs act rew next_obs done).ptr = (b.ptr + 1) % b.max_size ∧
    (b.store raw obs act rew next_obs done).size =
      min (b.size + 1) b.max_size := by
  refine ⟨Nat.lt_of_le_of_lt (Nat.zero_le _) hwf.1, ?_, rfl, rfl⟩
  exact b.slotAt_store_self raw obs act rew next_obs done hwf

theorem store_writes_at_cursor_witness :
    (ReplayBuffer.init 1 1 2).wf ∧
    (0 < (ReplayBuffer.init 1 1 2).max_size ∧
     ((ReplayBuffer.init 1 1 2).store [1] [2] [3] 4 [5] true).slotAt
        (ReplayBuffer.init 1 1 2).ptr = ⟨[1], [2], [3], 4, [5], true⟩ ∧
     ((ReplayBuffer.init 1 1 2).store [1] [2] [3] 4 [5] true).ptr =
        ((ReplayBuffer.init 1 1 2).ptr + 1) % (ReplayBuffer.init 1 1 2).max_size ∧
     ((ReplayBuffer.init 1 1 2).store [1] [2] [3] 4 [5] true).size =
        min ((ReplayBuffer.init 1 1 2).size + 1) (ReplayBuffer.init 1 1 2).max_size) :=
  ⟨by decide,
   store_writes_at_cursor (ReplayBuffer.init 1 1 2) [1] [2] [3] 4 [5] true
     (by decide)⟩

/-- C2: with capacity `cap > 0` and more than `cap` stored transitions, the
reported size is exactly `cap` and each slot holds the most recent
transition whose insertion index hits that slot (circular FIFO: the oldest
entries are the ones overwritten, in insertion order); concretely, for
capacity 3, storing A, B, C, D into a fresh buffer leaves the slots
containing [D, B, C] with the cursor back at index 1 and size 3. -/
theorem circular_fifo_overwrites_oldest (o a cap : Nat) (hcap : 0 < cap)
    (ts : List Transition) (hmore : cap < ts.length) (m : Nat)
    (hm : m < ts.length)
    (hlast : ∀ k, m < k → k < ts.length → k % cap ≠ m % cap)
    (A B C D : Transition) :
    ((ReplayBuffer.init o a cap).storeAll ts).size = cap ∧
    ((ReplayBuffer.init o a cap).storeAll ts).slotAt (m % cap) =
      ts.getD m default ∧
    ((ReplayBuffer.init o a 3).storeAll [A, B, C, D]).slotAt 0 = D ∧
    ((ReplayBuffer.init o a 3).storeAll [A, B, C, D]).slotAt 1 = B ∧
    ((ReplayBuffer.init o a 3).storeAll [A, B, C, D]).slotAt 2 = C ∧
    ((ReplayBuffer.init o a 3).storeAll [A, B, C, D]).ptr = 1 ∧
    ((ReplayBuffer.init o a 3).storeAll [A, B, C, D]).size = 3 := by
  refine ⟨?_, ReplayBuffer.storeAll_slotAt o a cap hcap ts m hm hlast,
    ?_, ?_, ?_, ?_, ?_⟩
  · have h := (ReplayBuffer.storeAll_state o a cap hcap ts).2.2.2
    omega
  all_goals
    simp [ReplayBuffer.storeAll, ReplayBuffer.storeT, ReplayBuffer.store,
      ReplayBuffer.init, ReplayBuffer.slotAt, List.getD]

theorem circular_fifo_overwrites_oldest_witness :
    ((ReplayBuffer.init 1 1 1).storeAll [tA, tB]).size = 1 ∧
    ((ReplayBuffer.init 1 1 1).storeAll [tA, tB]).slotAt (1 % 1) =
      [tA, tB].getD 1 default ∧
    ((ReplayBuffer.init 1 1 3).storeAll [tA, tB, tC, tD]).slotAt 0 = tD ∧
    ((ReplayBuffer.init 1 1 3).storeAll [tA, tB, tC, tD]).slotAt 1 = tB ∧
    ((ReplayBuffer.init 1 1 3).storeAll [tA, tB, tC, tD]).slotAt 2 = tC ∧
    ((ReplayBuffer.init 1 1 3).storeAll [tA, tB, tC, tD]).ptr = 1 ∧
    ((ReplayBuffer.init 1 1 3).storeAll [tA, tB, tC, tD]).size = 3 :=
  circular_fifo_overwrites_oldest 1 1 1 (by decide) [tA, tB] (by decide) 1
    (by decide) (by intro k hk1 hk2; simp at hk2; omega) tA tB tC tD

/-- C6 counterexample: the replay buffer created by `ReplayBuffer.__init__`
owns six parallel arrays (`raw_outs_buf`, `obs1_buf`, `obs2_buf`,
`acts_buf`, `rews_buf`, `done_buf`), not five. -/
theorem replay_buffer_not_five_arrays :
    (ReplayBuffer.init 1 1 2).fieldArrayLengths.length ≠ 5 := by decide

/-- C6 (amended): the ReplayBuffer owns six parallel fixed-size arrays plus
a write cursor and a current size; the invariant — cursor in [0, capacity),
size ≤ capacity, and all field arrays of length capacity (hence indexed
consistently for a given transition) — holds after construction with any
capacity > 0 and is preserved by every `store` call. -/
theorem replay_invariant_preserved (o a cap : Nat) (hcap : 0 < cap)
    (b : ReplayBuffer) (raw obs act : List ℚ) (rew : ℚ)
    (next_obs : List ℚ) (done : Bool) (hwf : b.wf) :
    (ReplayBuffer.init o a cap).fieldArrayLengths.length = 6 ∧
    (ReplayBuffer.init o a cap).wf ∧
    (b.store raw obs act rew next_obs done).wf :=
  ⟨rfl, ReplayBuffer.wf_init o a cap hcap,
   ReplayBuffer.wf_store b raw obs act rew next_obs done hwf⟩

theorem replay_invariant_preserved_witness :
    (0 < 2 ∧ (ReplayBuffer.init 1 1 2).wf) ∧
    ((ReplayBuffer.init 1 1 2).fieldArrayLengths.length = 6 ∧
     (ReplayBuffer.init 1 1 2).wf ∧
     ((ReplayBuffer.init 1 1 2).store [1] [2] [3] 4 [5] true).wf) :=
  ⟨⟨by decide, by decide⟩,
   replay_invariant_preserved 1 1 2 (by decide) (ReplayBuffer.init 1 1 2)
     [1] [2] [3] 4 [5] true (by decide)⟩

/-- C5: for a well-formed buffer and any index list drawn by
`np.random.randint(0, size, n)` (so every index < size), `sample_batch`
returns six slices all of length `n`, and for each position `k` the k-th
element of every field comes from the same stored transition `idxs[k]`,
whose index lies in `[0, size)` and inside the physical arrays (no error
path). -/
theorem sample_batch_aligned (b : ReplayBuffer) (idxs : List Nat) (k : Nat)
    (hwf : b.wf) (hidx : ∀ i ∈ idxs, i < b.size) (hk : k < idxs.length) :
    (b.sample_batch idxs).raw.length = idxs.length ∧
    (b.sample_batch idxs).obs1.length = idxs.length ∧
    (b.sample_batch idxs).obs2.length = idxs.length ∧
    (b.sample_batch idxs).acts.length = idxs.length ∧
    (b.sample_batch idxs).rews.length = idxs.length ∧
    (b.sample_batch idxs).done.length = idxs.length ∧
    idxs.getD k 0 < b.size ∧
    idxs.getD k 0 < b.raw_outs_buf.length ∧
    Transition.mk ((b.sample_batch idxs).raw.getD k [])
      ((b.sample_batch idxs).obs1.getD k [])
      ((b.sample_batch idxs).acts.getD k [])
      ((b.sample_batch idxs).rews.getD k 0)
      ((b.sample_batch idxs).obs2.getD k [])
      ((b.sample_batch idxs).done.getD k false) =
      b.slotAt (idxs.getD k 0) := by
  refine ⟨by simp [ReplayBuffer.sample_batch], by simp [ReplayBuffer.sample_batch],
    by simp [ReplayBuffer.sample_batch], by simp [ReplayBuffer.sample_batch],
    by simp [ReplayBuffer.sample_batch], by simp [ReplayBuffer.sample_batch],
    hidx _ (getD_mem idxs k 0 hk), ?_, ?_⟩
  · have h1 := hidx _ (getD_mem idxs k 0 hk)
    have h2 := hwf.2.1
    have h3 := hwf.2.2.1
    omega
  · simp only [ReplayBuffer.sample_batch, ReplayBuffer.slotAt]
    rw [getD_map _ idxs k 0 _ hk, getD_map _ idxs k 0 _ hk,
      getD_map _ idxs k 0 _ hk, getD_map _ idxs k 0 _ hk,
      getD_map _ idxs k 0 _ hk, getD_map _ idxs k 0 _ hk]

theorem sample_batch_aligned_witness :
    (((ReplayBuffer.init 1 1 2).storeT tA).sample_batch [0, 0]).raw.length = [0, 0].length ∧
    (((ReplayBuffer.init 1 1 2).storeT tA).sample_batch [0, 0]).obs1.length = [0, 0].length ∧
    (((ReplayBuffer.init 1 1 2).storeT tA).sample_batch [0, 0]).obs2.length = [0, 0].length ∧
    (((ReplayBuffer.init 1 1 2).storeT tA).sample_batch [0, 0]).acts.length = [0, 0].length ∧
    (((ReplayBuffer.init 1 1 2).storeT tA).sample_batch [0, 0]).rews.length = [0, 0].length ∧
    (((ReplayBuffer.init 1 1 2).storeT tA).sample_batch [0, 0]).done.length = [0, 0].length ∧
    [0, 0].getD 1 0 < ((ReplayBuffer.init 1 1 2).storeT tA).size ∧
    [0, 0].getD 1 0 < ((ReplayBuffer.init 1 1 2).storeT tA).raw_outs_buf.length ∧
    Transition.mk ((((ReplayBuffer.init 1 1 2).storeT tA).sample_batch [0, 0]).raw.getD 1 [])
      ((((ReplayBuffer.init 1 1 2).storeT tA).sample_batch [0, 0]).obs1.getD 1 [])
      ((((ReplayBuffer.init 1 1 2).storeT tA).sample_batch [0, 0]).acts.getD 1 [])
      ((((ReplayBuffer.init 1 1 2).storeT tA).sample_batch [0, 0]).rews.getD 1 0)
      ((((ReplayBuffer.init 1 1 2).storeT tA).sample_batch [0, 0]).obs2.getD 1 [])
      ((((ReplayBuffer.init 1 1 2).storeT tA).sample_batch [0, 0]).done.getD 1 false) =
      ((ReplayBuffer.init 1 1 2).storeT tA).slotAt ([0, 0].getD 1 0) :=
  sample_batch_aligned ((ReplayBuffer.init 1 1 2).storeT tA) [0, 0] 1
    (by decide) (by decide) (by decide)

/-- C3: at a training step where the episode length reaches `max_ep_len`
(`ep_len + 1 = max_ep_len` after the increment), the done flag stored in
the replay buffer is `false` even if the environment returned `true`; at a
step where the episode length stays strictly below `max_ep_len`, the
stored flag equals the environment's flag. -/
theorem stored_done_capped (b : ReplayBuffer) (ep_len max_ep_len : Nat)
    (raw o act : List ℚ) (r : ℚ) (o2 : List ℚ) (d_env : Bool)
    (hwf : b.wf) :
    (ep_len + 1 = max_ep_len →
      (((trainStep b ep_len max_ep_len raw o act r o2 d_env).1).slotAt
        b.ptr).done = false) ∧
    (ep_len + 1 < max_ep_len →
      (((trainStep b ep_len max_ep_len raw o act r o2 d_env).1).slotAt
        b.ptr).done = d_env) := by
  constructor
  · intro h
    simp only [trainStep, if_pos h]
    rw [ReplayBuffer.slotAt_store_self _ _ _ _ _ _ _ hwf]
  · intro h
    have hne : ep_len + 1 ≠ max_ep_len := by omega
    simp only [trainStep, if_neg hne]
    rw [ReplayBuffer.slotAt_store_self _ _ _ _ _ _ _ hwf]

theorem stored_done_capped_witness :
    ((ReplayBuffer.init 1 1 2).wf ∧ 0 + 1 = 1 ∧
     (((trainStep (ReplayBuffer.init 1 1 2) 0 1 [1] [2] [3] 4 [5] true).1).slotAt
        (ReplayBuffer.init 1 1 2).ptr).done = false) ∧
    (0 + 1 < 5 ∧
     (((trainStep (ReplayBuffer.init 1 1 2) 0 5 [1] [2] [3] 4 [5] true).1).slotAt
        (ReplayBuffer.init 1 1 2).ptr).done = true) :=
  ⟨⟨by decide, by decide,
    (stored_done_capped (ReplayBuffer.init 1 1 2) 0 1 [1] [2] [3] 4 [5] true
      (by decide)).1 (by decide)⟩,
   ⟨by decide,
    (stored_done_capped (ReplayBuffer.init 1 1 2) 0 5 [1] [2] [3] 4 [5] true
      (by decide)).2 (by decide)⟩⟩

/-- C7: after initialization (`target_init`) each target parameter equals
the corresponding main parameter, and after one smoothing step
(`target_update`) each target parameter equals
`polyak * old_target + (1 - polyak) * main`. -/
theorem target_network_polyak (p : ℚ) (main targ : List ℚ) (i : Nat)
    (h1 : i < main.length) (h2 : i < targ.length) :
    (target_init main targ).getD i 0 = main.getD i 0 ∧
    (target_update p main targ).getD i 0 =
      p * targ.getD i 0 + (1 - p) * main.getD i 0 := by
  constructor
  · rw [target_init, getD_zipWith _ main targ i 0 0 0 h1 h2]
  · rw [target_update, getD_zipWith _ main targ i 0 0 0 h1 h2]

theorem target_network_polyak_witness :
    (1 < [(3 : ℚ), 7].length ∧ 1 < [(5 : ℚ), 11].length) ∧
    ((target_init [(3 : ℚ), 7] [(5 : ℚ), 11]).getD 1 0 =
      [(3 : ℚ), 7].getD 1 0 ∧
     (target_update (1 / 2) [(3 : ℚ), 7] [(5 : ℚ), 11]).getD 1 0 =
      (1 / 2) * [(5 : ℚ), 11].getD 1 0 +
        (1 - 1 / 2) * [(3 : ℚ), 7].getD 1 0) :=
  ⟨⟨by decide, by decide⟩,
   target_network_polyak (1 / 2) [3, 7] [5, 11] 1 (by decide) (by decide)⟩

/-- C4 counterexample: at step `t = start_steps` (here both 5), the main
loop takes the `else` branch of `if t > start_steps` and executes the
randomly sampled action (here 0), not the policy action (here 1) — so "for
every t at or past the threshold, the action is the policy output" fails
at t = start_steps. -/
theorem action_at_start_steps_is_random :
    selectAction 5 5 (0 : ℚ) 1 = 0 ∧ selectAction 5 5 (0 : ℚ) 1 ≠ 1 := by
  constructor
  · rfl
  · intro h
    simp [selectAction] at h

/-- C4 (amended): for every step `t ≤ start_steps` the executed action is
the uniformly sampled one from the action space; for every
`t > start_steps` it is `get_action(o, act_noise)`, i.e. the policy output
plus Gaussian noise scaled by `act_noise`, clipped component-wise to the
`act_limit` bounds. -/
theorem warmup_action_selection (t s : Nat) (randomA : List ℚ)
    (pi_out noise : List ℚ) (sigma L : ℚ) :
    (t ≤ s →
      selectAction t s randomA (get_action pi_out noise sigma L) = randomA) ∧
    (s < t →
      selectAction t s randomA (get_action pi_out noise sigma L) =
        (List.zipWith (fun ai ni => ai + sigma * ni) pi_out noise).map
          (fun x => npClip x (-L) L)) := by
  constructor
  · intro h
    simp [selectAction, Nat.not_lt.mpr h]
  · intro h
    simp [selectAction, h, get_action]

theorem warmup_action_selection_witness :
    (3 ≤ 5 ∧
     selectAction 3 5 [(1 : ℚ)] (get_action [0] [0] 0 1) = [(1 : ℚ)]) ∧
    (5 < 7 ∧
     selectAction 7 5 [(1 : ℚ)] (get_action [0] [0] 0 1) =
       (List.zipWith (fun ai ni => ai + 0 * ni) [(0 : ℚ)] [(0 : ℚ)]).map
         (fun x => npClip x (-1) 1)) :=
  ⟨⟨by decide, (warmup_action_selection 3 5 [1] [0] [0] 0 1).1 (by decide)⟩,
   ⟨by decide, (warmup_action_selection 7 5 [1] [0] [0] 0 1).2 (by decide)⟩⟩

/-- C9: every action produced by `get_action` — with exploration noise or
deterministic (noise 0) — is clipped component-wise to `[-L, L]` with
`L = act_limit = high[0]`; and since the per-dimension and lower bounds of
the action space are never consulted, there are action spaces with
`low ≤ high` per dimension for which the produced action exceeds the upper
bound of a dimension, and ones for which it falls below the lower bound. -/
theorem get_action_clipped_to_shared_limit (high pi_out noise : List ℚ)
    (sigma x : ℚ) (hL : 0 ≤ act_limit high)
    (hx : x ∈ get_action pi_out noise sigma (act_limit high)) :
    (-act_limit high ≤ x ∧ x ≤ act_limit high) ∧
    (∃ high2 low2 pi2 : List ℚ, ∃ k : Nat,
      low2.getD k 0 ≤ high2.getD k 0 ∧
      high2.getD k 0 < (get_action pi2 [0, 0] 0 (act_limit high2)).getD k 0) ∧
    (∃ high3 low3 pi3 : List ℚ, ∃ k : Nat,
      low3.getD k 0 ≤ high3.getD k 0 ∧
      (get_action pi3 [0, 0] 0 (act_limit high3)).getD k 0 < low3.getD k 0) := by
  refine ⟨?_, ?_, ?_⟩
  · simp only [get_action, List.mem_map] at hx
    obtain ⟨y, _, rfl⟩ := hx
    unfold npClip
    constructor
    · exact le_min (by linarith) (le_max_left _ _)
    · exact min_le_left _ _
  · refine ⟨[1, 1 / 2], [-1, -(1 / 2)], [0, 9 / 10], 1, by norm_num, ?_⟩
    norm_num [get_action, act_limit, npClip, List.getD]
  · refine ⟨[1, 1 / 2], [-1, -(1 / 2)], [0, -(9 / 10)], 1, by norm_num, ?_⟩
    norm_num [get_action, act_limit, npClip, List.getD]

theorem get_action_clipped_witness :
    (0 ≤ act_limit [(1 : ℚ)] ∧
     (0 : ℚ) ∈ get_action [0] [0] 0 (act_limit [(1 : ℚ)])) ∧
    ((-act_limit [(1 : ℚ)] ≤ (0 : ℚ) ∧ (0 : ℚ) ≤ act_limit [(1 : ℚ)]) ∧
     (∃ high2 low2 pi2 : List ℚ, ∃ k : Nat,
       low2.getD k 0 ≤ high2.getD k 0 ∧
       high2.getD k 0 < (get_action pi2 [0, 0] 0 (act_limit high2)).getD k 0) ∧
     (∃ high3 low3 pi3 : List ℚ, ∃ k : Nat,
       low3.getD k 0 ≤ high3.getD k 0 ∧
       (get_action pi3 [0, 0] 0 (act_limit high3)).getD k 0 < low3.getD k 0)) :=
  ⟨⟨by decide, by norm_num [get_action, npClip, act_limit, List.getD]⟩,
   get_action_clipped_to_shared_limit [1] [0] [0] 0 0 (by decide)
     (by norm_num [get_action, npClip, act_limit, List.getD])⟩

theorem length_flatten_replicate (n : Nat) :
    ((List.replicate n updateIterationOps).flatten).length = 4 * n := by
  induction n with
  | zero => rfl
  | succ m ih =>
    rw [List.replicate_succ, List.flatten_cons, List.length_append, ih]
    simp [updateIterationOps]
    omega

theorem drop_length_append {α : Type} (l1 l2 : List α) (k : Nat) :
    (l1 ++ l2).drop (l1.length + k) = l2.drop k := by
  induction l1 with
  | nil => simp
  | cons x xs ih => simp [Nat.succ_add, ih]

theorem drop_take_flatten_replicate (n i : Nat) (h : i < n) :
    ((((List.replicate n updateIterationOps).flatten).drop (4 * i)).take 4) =
      updateIterationOps := by
  induction n generalizing i with
  | zero => exact absurd h (Nat.not_lt_zero i)
  | succ m ih =>
    rw [List.replicate_succ, List.flatten_cons]
    cases i with
    | zero => rfl
    | succ j =>
      rw [show 4 * (j + 1) = updateIterationOps.length + 4 * j from by
        simp [updateIterationOps]; ring]
      rw [drop_length_append]
      exact ih j (by omega)

/-- C8: with `update_every > 0`, the update-handling block runs at step `t`
iff the buffer-fill threshold has been passed (`t ≥ update_after`, i.e. the
buffer holds more than `update_after` transitions) and `t` is a multiple of
`update_every`; when it runs it performs exactly `update_every` iterations,
each consisting of sampling one random batch, then the Q-learning update,
then the policy update, then the target-network smoothing step; otherwise
nothing runs. -/
theorem update_schedule (t ua ue i : Nat) (hue : 0 < ue) (hi : i < ue) :
    (updateOps t ua ue ≠ [] ↔ (ua ≤ t ∧ t % ue = 0)) ∧
    (ua ≤ t → t % ue = 0 →
      (updateOps t ua ue).length = 4 * ue ∧
      ((updateOps t ua ue).drop (4 * i)).take 4 = updateIterationOps) ∧
    (¬(ua ≤ t ∧ t % ue = 0) → updateOps t ua ue = []) := by
  have htr : updateTrigger t ua ue = true ↔ (ua ≤ t ∧ t % ue = 0) := by
    simp [updateTrigger]
  refine ⟨⟨?_, ?_⟩, ?_, ?_⟩
  · intro hne
    by_cases h : updateTrigger t ua ue = true
    · exact htr.mp h
    · simp [updateOps, h] at hne
  · intro hc
    have h := htr.mpr hc
    simp only [updateOps, h, if_true]
    have hlen := length_flatten_replicate ue
    intro hnil
    rw [hnil] at hlen
    simp at hlen
    omega
  · intro h1 h2
    have h := htr.mpr ⟨h1, h2⟩
    simp only [updateOps, h, if_true]
    exact ⟨length_flatten_replicate ue, drop_take_flatten_replicate ue i hi⟩
  · intro hc
    have h : updateTrigger t ua ue ≠ true := fun hh => hc (htr.mp hh)
    simp [updateOps, h]

theorem update_schedule_witness :
    (0 < 2 ∧ 1 < 2) ∧
    ((updateOps 4 2 2 ≠ [] ↔ (2 ≤ 4 ∧ 4 % 2 = 0)) ∧
     (2 ≤ 4 → 4 % 2 = 0 →
       (updateOps 4 2 2).length = 4 * 2 ∧
       ((updateOps 4 2 2).drop (4 * 1)).take 4 = updateIterationOps) ∧
     (¬(2 ≤ 4 ∧ 4 % 2 = 0) → updateOps 4 2 2 = [])) :=
  ⟨⟨by decide, by decide⟩, update_schedule 4 2 2 1 (by decide) (by decide)⟩

theorem dictGet_dictSet (d : List (String × String)) (k v : String) :
    dictGet (dictSet d k v) k = some v := by
  induction d with
  | nil => simp [dictSet, dictGet, List.lookup]
  | cons p rest ih =>
    cases p with
    | mk k2 v2 =>
      by_cases h : k2 = k
      · simp [dictSet, h, dictGet, List.lookup]
      · have hbeq : (k == k2) = false :=
          beq_eq_false_iff_ne.mpr (fun hh => h hh.symm)
        simp only [dictSet, if_neg h, dictGet, List.lookup, hbeq]
        exact ih

/-- C10: `ddpg` mutates the caller's `env_params` dict in place — the
training environment is configured with the caller's contents, then
`env_params['reset_index_mode'] = 'random'` changes that same dict, and the
test environment is configured with the mutated dict, whose
`reset_index_mode` entry is `'random'`; on the concrete input
`{'reset_index_mode': 'fixed'}` the training and test environments receive
different dicts and the caller's dict is changed by the call. -/
theorem env_params_mutated_in_place (ep : List (String × String)) :
    (configureEnvs ep).trainParams = ep ∧
    (configureEnvs ep).finalParams = dictSet ep "reset_index_mode" "random" ∧
    dictGet (configureEnvs ep).testParams "reset_index_mode" =
      some "random" ∧
    ((configureEnvs [("reset_index_mode", "fixed")]).trainParams ≠
       (configureEnvs [("reset_index_mode", "fixed")]).testParams ∧
     (configureEnvs [("reset_index_mode", "fixed")]).finalParams ≠
       [("reset_index_mode", "fixed")]) := by
  refine ⟨rfl, rfl, dictGet_dictSet ep _ _, by decide, by decide⟩

end DDPGSpec
